import Mathlib

/-!
Verification of the toy Hadamard-simulator backend defined in the notebook
src/qiskit/terra/creating_a_provider.ipynb.

The notebook defines:
  - a module-level function run_hadamard_simulator(number_of_qubits,
    list_of_qubits, shots) computing per-basis-state shot counts;
  - a class HadamardJob (a stub job holding a precomputed result);
  - a class HadamardSimulator with a run(qobj) method;
  - a class HadamardProvider whose backends(name) method filters a static
    one-element backend list.

The embedding below translates that Python code into Lean.  Python machine
integers are modelled as Nat (all quantities involved are non-negative).
Python list indexing, which raises IndexError when out of range, is modelled
with Option: a none result stands for an IndexError escaping the function.
-/

/-!
## The external simulator: run_hadamard_simulator

Python source (notebook cell 4):

  hadamard_list = [0]*number_of_qubits
  for qubit in list_of_qubits:
      hadamard_list[qubit] = (1 + hadamard_list[qubit])%2

  result = [0]*(2**number_of_qubits)
  for i in range(2**number_of_qubits):
      basis_state = .format(i).zfill(number_of_qubits)[::-1]
      for qubit in range(number_of_qubits):
          if hadamard_list[qubit] == 0 and basis_state[qubit] == 1:
              result[i] = 0
              break
          if hadamard_list[qubit] == 1:
              result[i] += int(shots/(2**(1 + hadamard_list.count(1))))

Notes on the translation:
  - basis_state is the binary string of i, zero-filled to number_of_qubits
    characters and reversed, so basis_state[qubit] == 1 exactly when bit
    number qubit of i is set: Nat.testBit i qubit.
  - int(shots/(2**e)) is float division truncated; for the Nat inputs in
    range (the backend caps shots at 100000) it equals Nat division
    shots / 2 ^ e, which is how it is modelled.
  - hadamard_list.count(1) is evaluated on the fully built hadamard_list;
    it is passed to the inner loop as the parameter k below.
-/

/-- The first loop of run_hadamard_simulator: fold the Hadamard-parity
updates over list_of_qubits.  hadamard_list[qubit] raises IndexError when
qubit is out of range, hence the Option result. -/
def buildHadamardList : List Nat → List Nat → Option (List Nat)
  | hl, [] => some hl
  | hl, qubit :: rest =>
    match hl.get? qubit with
    | none => none
    | some v => buildHadamardList (hl.set qubit ((1 + v) % 2)) rest

/-- hadamard_list as built from the all-zero initial list of length
number_of_qubits. -/
def mkHadamardList (number_of_qubits : Nat) (list_of_qubits : List Nat) :
    Option (List Nat) :=
  buildHadamardList (List.replicate number_of_qubits 0) list_of_qubits

/-- The inner loop over qubit positions for one basis state i.  The list
argument is the not-yet-visited tail of hadamard_list, q is the current
qubit index, acc is the current value of result[i], and k is
hadamard_list.count(1) of the full list.  The break branch overwrites the
accumulator with 0, exactly as result[i] = 0 followed by break does. -/
def stateLoop (shots k i : Nat) : List Nat → Nat → Nat → Nat
  | [], _, acc => acc
  | h :: rest, q, acc =>
    if h = 0 ∧ i.testBit q then 0
    else stateLoop shots k i rest (q + 1)
      (if h = 1 then acc + shots / 2 ^ (1 + k) else acc)

/-- run_hadamard_simulator from notebook cell 4.  Returns none when the
Python code would raise IndexError (some qubit in list_of_qubits is out of
range for hadamard_list). -/
def run_hadamard_simulator (number_of_qubits : Nat) (list_of_qubits : List Nat)
    (shots : Nat) : Option (List Nat) :=
  match mkHadamardList number_of_qubits list_of_qubits with
  | none => none
  | some hadamard_list =>
    some ((List.range (2 ^ number_of_qubits)).map (fun i =>
      stateLoop shots (hadamard_list.count 1) i hadamard_list 0 0))

/-!
## Derived characterisation of the counts

The following definitions restate, per basis state, what the code computes.
They are proved equal to the embedding above and are used in theorem
statements; they are derived from the source, not from the spec.
-/

/-- Number of qubits that receive an odd number of Hadamard gates, i.e.
hadamard_list.count(1). -/
def numOdd (number_of_qubits : Nat) (list_of_qubits : List Nat) : Nat :=
  ((List.range number_of_qubits).filter
    (fun q => list_of_qubits.count q % 2 == 1)).length

/-- A basis state i is reachable when every set bit of i (below
number_of_qubits) sits on a qubit with an odd Hadamard count. -/
def validState (number_of_qubits : Nat) (list_of_qubits : List Nat)
    (i : Nat) : Bool :=
  (List.range number_of_qubits).all
    (fun q => !(i.testBit q) || (list_of_qubits.count q % 2 == 1))

/-- The per-basis-state count the code produces: 0 for unreachable states,
and k * (shots / 2 ^ (1 + k)) with k = numOdd for reachable ones (the inner
loop adds shots / 2 ^ (1 + k) once for every odd-parity qubit). -/
def specCount (number_of_qubits : Nat) (list_of_qubits : List Nat)
    (shots i : Nat) : Nat :=
  if validState number_of_qubits list_of_qubits i then
    numOdd number_of_qubits list_of_qubits *
      (shots / 2 ^ (1 + numOdd number_of_qubits list_of_qubits))
  else 0

/-!
## Qobj data model

Only the parts of the external Qobj schema actually read by the notebook are
modelled: qobj.config.shots, and per experiment config.n_qubits, header.name,
and the instruction list with name, qubits and conditional attributes.
-/

/-- One instruction of an experiment.  conditional models the truthiness of
getattr(operation, conditional, None). -/
structure Instruction where
  name : String
  qubits : List Nat
  conditional : Bool
deriving DecidableEq

/-- The experiment header; the notebook reads only header.name (and passes
header.as_dict() through to the result). -/
structure ExperimentHeader where
  name : String
deriving DecidableEq

/-- The experiment configuration; the notebook reads only config.n_qubits. -/
structure ExperimentConfig where
  n_qubits : Nat
deriving DecidableEq

/-- One experiment (circuit) of a qobj. -/
structure Experiment where
  config : ExperimentConfig
  header : ExperimentHeader
  instructions : List Instruction
deriving DecidableEq

/-- The qobj configuration; the notebook reads only config.shots. -/
structure QobjConfig where
  shots : Nat
deriving DecidableEq

/-- A qobj: a list of experiments plus a configuration. -/
structure Qobj where
  experiments : List Experiment
  config : QobjConfig
deriving DecidableEq

/-- The errors HadamardSimulator.run can raise: the two explicit
QiskitError raises, and IndexError from out-of-range list indexing. -/
inductive RunError where
  | qiskitError (msg : String)
  | indexError
deriving DecidableEq

deriving instance DecidableEq for Except

/-- One entry of the experiment_results list built by run.  The
formatted_counts dict with keys hex(i) is modelled as an association list
keyed by i itself (hex formatting is injective). -/
structure ExperimentResult where
  name : String
  success : Bool
  shots : Nat
  counts : List (Nat × Nat)
  header : ExperimentHeader
deriving DecidableEq

/-- The Result dict passed to Result.from_dict at the end of run. -/
structure HadamardResult where
  results : List ExperimentResult
  backend_name : String
  backend_version : String
  qobj_id : String
  job_id : String
  success : Bool
deriving DecidableEq

/-!
## Backend configuration and the HadamardSimulator / HadamardJob classes
-/

/-- The backend configuration dictionary from HadamardSimulator.__init__
(the gates field, a constant TODO placeholder, is omitted). -/
structure BackendConfiguration where
  backend_name : String
  backend_version : String
  url : String
  simulator : Bool
  is_local : Bool
  description : String
  basis_gates : List String
  memory : Bool
  n_qubits : Nat
  conditional : Bool
  max_shots : Nat
  open_pulse : Bool
deriving DecidableEq

/-- The concrete configuration dictionary from the notebook (the source key
named after locality is called is_local here because its Python name is a
Lean keyword). -/
def hadamardConfiguration : BackendConfiguration :=
  { backend_name := "hadamard_simulator"
    backend_version := "0.1.0"
    url := "http://www.i_love_hadamard.com"
    simulator := true
    is_local := true
    description := "Simulates only Hadamard gates"
    basis_gates := ["h", "x"]
    memory := true
    n_qubits := 30
    conditional := false
    max_shots := 100000
    open_pulse := false }

/-- A HadamardSimulator instance: its only data is the configuration stored
by BaseBackend.__init__ (the provider back-reference is inert and omitted). -/
structure HadamardSimulator where
  configuration : BackendConfiguration
deriving DecidableEq

/-- BaseBackend.name() returns the backend_name of the stored
configuration (external framework behaviour relied on by the notebook). -/
def HadamardSimulator.name (b : HadamardSimulator) : String :=
  b.configuration.backend_name

/-- The HadamardSimulator() instance built by __init__. -/
def hadamardSimulator : HadamardSimulator :=
  { configuration := hadamardConfiguration }

/-- A HadamardJob: BaseJob.__init__ stores the backend and the job id
(run passes HadamardJob(None), hence the Option), and run assigns the
precomputed result to the field named underscore-result in Python. -/
structure HadamardJob where
  backend : Option HadamardSimulator
  job_id : Nat
  job_result : HadamardResult
deriving DecidableEq

/-- HadamardJob.result: returns self underscore-result unchanged. -/
def HadamardJob.result (j : HadamardJob) : HadamardResult :=
  j.job_result

/-- HadamardJob.cancel: the body is pass, so it returns None and does not
touch the job.  Modelled as the pair of the returned None value and the
job after the call. -/
def HadamardJob.cancel (j : HadamardJob) : Option Unit × HadamardJob :=
  (none, j)

/-- HadamardJob.status: the body is pass. -/
def HadamardJob.status (j : HadamardJob) : Option Unit × HadamardJob :=
  (none, j)

/-- HadamardJob.submit: the body is pass. -/
def HadamardJob.submit (j : HadamardJob) : Option Unit × HadamardJob :=
  (none, j)

/-!
## HadamardSimulator.run
-/

/-- The instruction loop of run: builds list_of_qubits, raising QiskitError
on conditional instructions and on gate names other than h and measure,
skipping measure, and appending operation.qubits[0] for each h (IndexError
when the qubits list is empty). -/
def processInstructions : List Instruction → List Nat →
    Except RunError (List Nat)
  | [], acc => Except.ok acc
  | op :: rest, acc =>
    if op.conditional then
      Except.error (RunError.qiskitError
        "conditional operations are not supported by the Hadamard simulator")
    else if op.name ≠ "h" then
      if op.name = "measure" then processInstructions rest acc
      else Except.error (RunError.qiskitError
        "The Hadamrd simulator allows only Hadamard gates")
    else
      match op.qubits with
      | [] => Except.error RunError.indexError
      | q :: _ => processInstructions rest (acc ++ [q])

/-- The body of the per-circuit loop of run: process the instructions, call
run_hadamard_simulator, and format the nonzero counts. -/
def runExperiment (shots : Nat) (circuit : Experiment) :
    Except RunError ExperimentResult :=
  match processInstructions circuit.instructions [] with
  | Except.error e => Except.error e
  | Except.ok list_of_qubits =>
    match run_hadamard_simulator circuit.config.n_qubits list_of_qubits shots with
    | none => Except.error RunError.indexError
    | some counts =>
      Except.ok
        { name := circuit.header.name
          success := true
          shots := shots
          counts := (List.range (2 ^ circuit.config.n_qubits)).filterMap
            (fun i => if counts.getD i 0 = 0 then none
                      else some (i, counts.getD i 0))
          header := circuit.header }

/-- The loop over qobj.experiments, stopping at the first raised error,
exactly as the Python for-loop does. -/
def runExperiments (shots : Nat) : List Experiment →
    Except RunError (List ExperimentResult)
  | [] => Except.ok []
  | circuit :: rest =>
    match runExperiment shots circuit with
    | Except.error e => Except.error e
    | Except.ok er =>
      match runExperiments shots rest with
      | Except.error e => Except.error e
      | Except.ok ers => Except.ok (er :: ers)

/-- The dict passed to Result.from_dict at the end of run. -/
def runResultDict (experiment_results : List ExperimentResult) :
    HadamardResult :=
  { results := experiment_results
    backend_name := "hadamard_simulator"
    backend_version := "0.1.0"
    qobj_id := "0"
    job_id := "0"
    success := true }

/-- HadamardSimulator.run(qobj): runs every experiment, then wraps the
results in a HadamardJob built as HadamardJob(None) (so backend is none and
job id is 1, the constant passed to BaseJob.__init__).  The b argument is
the self parameter; the method body never reads it. -/
def HadamardSimulator.run (_b : HadamardSimulator) (qobj : Qobj) :
    Except RunError HadamardJob :=
  match runExperiments qobj.config.shots qobj.experiments with
  | Except.error e => Except.error e
  | Except.ok experiment_results =>
    Except.ok
      { backend := none
        job_id := 1
        job_result := runResultDict experiment_results }

/-!
## HadamardProvider
-/

/-- A HadamardProvider: its only data is the backend list populated by
__init__. -/
structure HadamardProvider where
  backend_list : List HadamardSimulator
deriving DecidableEq

/-- HadamardProvider(): __init__ sets the internal list (Python name
underscore-backends, called backend_list here) to a single
HadamardSimulator. -/
def mkHadamardProvider : HadamardProvider :=
  { backend_list := [hadamardSimulator] }

/-- HadamardProvider.backends(name): starts from the internal list and
keeps only backends whose name() equals name when name is truthy (Python
`if name:` treats both None and the empty string as false).  The final
filter_backends(backends, filters=None) call of the external framework
returns its input unchanged when no filters are given, and is modelled as
the identity. -/
def HadamardProvider.backends (p : HadamardProvider) (name : Option String) :
    List HadamardSimulator :=
  match name with
  | none => p.backend_list
  | some s =>
    if s = "" then p.backend_list
    else p.backend_list.filter (fun backend => backend.name == s)

/-!
## Lemmas about run_hadamard_simulator
-/

theorem getD_set_self (l : List Nat) (q x : Nat) (h : q < l.length) :
    (l.set q x).getD q 0 = x := by
  rw [List.getD_eq_getElem?_getD, List.getElem?_set_self h]
  rfl

theorem getD_set_ne (l : List Nat) (q j x : Nat) (h : q ≠ j) :
    (l.set q x).getD j 0 = l.getD j 0 := by
  rw [List.getD_eq_getElem?_getD, List.getElem?_set_ne h,
    ← List.getD_eq_getElem?_getD]

theorem buildHadamardList_ok (qs : List Nat) : ∀ hl : List Nat,
    (∀ q ∈ qs, q < hl.length) → (∀ j, j < hl.length → hl.getD j 0 < 2) →
    ∃ hl2, buildHadamardList hl qs = some hl2 ∧ hl2.length = hl.length ∧
      ∀ j, j < hl.length → hl2.getD j 0 = (hl.getD j 0 + qs.count j) % 2 := by
  induction qs with
  | nil =>
    intro hl _ hb
    refine ⟨hl, rfl, rfl, fun j hj => ?_⟩
    have := hb j hj
    simp only [List.count_nil, Nat.add_zero]
    omega
  | cons q0 rest ih =>
    intro hl hq hb
    have hqlt : q0 < hl.length := hq q0 (by simp)
    have hget : hl.get? q0 = some (hl.getD q0 0) := by
      rw [List.get?_eq_getElem?, List.getElem?_eq_getElem hqlt,
        List.getD_eq_getElem?_getD, List.getElem?_eq_getElem hqlt]
      rfl
    have hstep : buildHadamardList hl (q0 :: rest) =
        buildHadamardList (hl.set q0 ((1 + hl.getD q0 0) % 2)) rest := by
      rw [buildHadamardList, hget]
    obtain ⟨hl2, h1, h2, h3⟩ := ih (hl.set q0 ((1 + hl.getD q0 0) % 2))
      (by intro q hq2; rw [List.length_set]; exact hq q (by simp [hq2]))
      (by
        intro j hj
        rw [List.length_set] at hj
        by_cases hje : q0 = j
        · subst hje; rw [getD_set_self _ _ _ hqlt]; omega
        · rw [getD_set_ne _ _ _ _ hje]; exact hb j hj)
    rw [List.length_set] at h2 h3
    refine ⟨hl2, by rw [hstep, h1], by rw [h2], fun j hj => ?_⟩
    have h4 := h3 j hj
    by_cases hje : q0 = j
    · subst hje
      rw [getD_set_self _ _ _ hqlt] at h4
      rw [h4, List.count_cons_self]
      omega
    · rw [getD_set_ne _ _ _ _ hje] at h4
      rw [h4, List.count_cons_of_ne (fun h => hje h.symm)]

theorem buildHadamardList_bound (qs : List Nat) : ∀ hl hl2 : List Nat,
    buildHadamardList hl qs = some hl2 → ∀ q ∈ qs, q < hl.length := by
  induction qs with
  | nil => intro hl hl2 _ q hq; simp at hq
  | cons q0 rest ih =>
    intro hl hl2 heq q hq
    cases hg : hl.get? q0 with
    | none =>
      rw [buildHadamardList, hg] at heq
      exact absurd heq (by simp)
    | some v =>
      rw [buildHadamardList, hg] at heq
      have hlt : q0 < hl.length := by
        by_contra hge
        rw [List.get?_eq_getElem?, List.getElem?_eq_none (by omega)] at hg
        exact absurd hg (by simp)
      rcases List.mem_cons.mp hq with h1 | h2
      · subst h1; exact hlt
      · have := ih _ _ heq q h2
        rwa [List.length_set] at this

theorem mkHadamardList_spec (n : Nat) (qs : List Nat)
    (hq : ∀ q ∈ qs, q < n) :
    ∃ hl, mkHadamardList n qs = some hl ∧ hl.length = n ∧
      ∀ j, j < n → hl.getD j 0 = qs.count j % 2 := by
  obtain ⟨hl2, h1, h2, h3⟩ := buildHadamardList_ok qs (List.replicate n 0)
    (by simpa using hq)
    (by
      intro j hj
      rw [List.length_replicate] at hj
      rw [List.getD_eq_getElem?_getD, List.getElem?_replicate_of_lt hj]
      simp)
  rw [List.length_replicate] at h2 h3
  refine ⟨hl2, h1, h2, fun j hj => ?_⟩
  have hz : (List.replicate n 0).getD j 0 = 0 := by
    rw [List.getD_eq_getElem?_getD, List.getElem?_replicate_of_lt hj]
    rfl
  have := h3 j hj
  rwa [hz, Nat.zero_add] at this

theorem run_hadamard_simulator_isSome_iff (n : Nat) (qs : List Nat)
    (shots : Nat) :
    (∃ r, run_hadamard_simulator n qs shots = some r) ↔ ∀ q ∈ qs, q < n := by
  constructor
  · rintro ⟨r, hr⟩
    rw [run_hadamard_simulator] at hr
    cases hmk : mkHadamardList n qs with
    | none => rw [hmk] at hr; exact absurd hr (by simp)
    | some hl =>
      intro q hq
      have := buildHadamardList_bound qs (List.replicate n 0) hl hmk q hq
      rwa [List.length_replicate] at this
  · intro hq
    obtain ⟨hl, hmk, _, _⟩ := mkHadamardList_spec n qs hq
    exact ⟨_, by rw [run_hadamard_simulator, hmk]⟩

theorem count_one_map (f : Nat → Nat) (l : List Nat) :
    (l.map f).count 1 = (l.filter (fun q => f q == 1)).length := by
  induction l with
  | nil => rfl
  | cons a l ih =>
    rw [List.map_cons, List.count_cons, List.filter_cons, ih]
    by_cases h : f a = 1
    · simp [h]
    · simp [h, Ne.symm h]

theorem hadamard_list_eq_map (n : Nat) (qs : List Nat) (hl : List Nat)
    (hlen : hl.length = n) (hval : ∀ j, j < n → hl.getD j 0 = qs.count j % 2) :
    hl = (List.range n).map (fun q => qs.count q % 2) := by
  apply List.ext_getElem?
  intro i
  by_cases hi : i < n
  · rw [List.getElem?_eq_getElem (by omega), List.getElem?_map,
      List.getElem?_range hi, Option.map_some']
    have := hval i hi
    rw [List.getD_eq_getElem?_getD, List.getElem?_eq_getElem (by omega),
      Option.getD_some] at this
    rw [this]
  · rw [List.getElem?_eq_none (by omega),
      List.getElem?_eq_none (by simp; omega)]

theorem stateLoop_break (shots k i : Nat) : ∀ (hl : List Nat) (q acc : Nat),
    (∃ j, j < hl.length ∧ hl.getD j 0 = 0 ∧ i.testBit (q + j) = true) →
    stateLoop shots k i hl q acc = 0 := by
  intro hl
  induction hl with
  | nil =>
    rintro q acc ⟨j, hj, -, -⟩
    simp at hj
  | cons h rest ih =>
    rintro q acc ⟨j, hj, hz, hb⟩
    by_cases hbreak : h = 0 ∧ i.testBit q
    · rw [stateLoop, if_pos hbreak]
    · rw [stateLoop, if_neg hbreak]
      apply ih
      cases j with
      | zero =>
        refine absurd ⟨?_, ?_⟩ hbreak
        · simpa using hz
        · simpa using hb
      | succ j2 =>
        refine ⟨j2, by simpa using hj, by simpa using hz, ?_⟩
        rw [show q + 1 + j2 = q + (j2 + 1) by omega]
        exact hb

theorem stateLoop_run (shots k i : Nat) : ∀ (hl : List Nat) (q acc : Nat),
    (∀ j, j < hl.length → hl.getD j 0 = 0 → i.testBit (q + j) = false) →
    stateLoop shots k i hl q acc =
      acc + hl.count 1 * (shots / 2 ^ (1 + k)) := by
  intro hl
  induction hl with
  | nil =>
    intro q acc _
    simp [stateLoop]
  | cons h rest ih =>
    intro q acc hno
    have hnb : ¬ (h = 0 ∧ i.testBit q) := by
      rintro ⟨h0, hbit⟩
      have := hno 0 (by simp) (by simpa using h0)
      rw [Nat.add_zero] at this
      rw [this] at hbit
      exact absurd hbit (by simp)
    rw [stateLoop, if_neg hnb]
    rw [ih (q + 1) _ (fun j hj hz => by
      have := hno (j + 1) (by simpa using hj) (by simpa using hz)
      rwa [show q + (j + 1) = q + 1 + j by omega] at this)]
    by_cases h1 : h = 1
    · subst h1
      rw [if_pos rfl, List.count_cons_self]
      ring
    · rw [if_neg h1, List.count_cons_of_ne (fun hh => h1 hh.symm)]

theorem getD_map_range (f : Nat → Nat) (m i : Nat) (h : i < m) :
    ((List.range m).map f).getD i 0 = f i := by
  rw [List.getD_eq_getElem?_getD, List.getElem?_map, List.getElem?_range h]
  rfl

theorem validState_eq_true_iff (n : Nat) (qs : List Nat) (i : Nat) :
    validState n qs i = true ↔
      ∀ q, q < n → i.testBit q = true → qs.count q % 2 = 1 := by
  rw [validState, List.all_eq_true]
  constructor
  · intro H q hq hbit
    have := H q (List.mem_range.mpr hq)
    rw [hbit] at this
    simpa using this
  · intro H q hq
    by_cases hbit : i.testBit q = true
    · simp [hbit, H q (List.mem_range.mp hq) hbit]
    · simp [Bool.eq_false_iff.mpr hbit]

theorem run_hadamard_simulator_spec (n : Nat) (qs : List Nat) (shots : Nat)
    (hq : ∀ q ∈ qs, q < n) :
    ∃ r, run_hadamard_simulator n qs shots = some r ∧ r.length = 2 ^ n ∧
      ∀ i, i < 2 ^ n → r.getD i 0 = specCount n qs shots i := by
  obtain ⟨hl, hmk, hlen, hval⟩ := mkHadamardList_spec n qs hq
  have hcount : hl.count 1 = numOdd n qs := by
    rw [hadamard_list_eq_map n qs hl hlen hval, count_one_map]
    rfl
  refine ⟨_, by rw [run_hadamard_simulator, hmk], by simp, ?_⟩
  intro i hi
  rw [getD_map_range _ _ _ hi]
  by_cases hv : validState n qs i = true
  · rw [stateLoop_run]
    · rw [hcount, specCount, if_pos hv, Nat.zero_add]
    · intro j hj hz
      have hjn : j < n := hlen ▸ hj
      have hzero : qs.count j % 2 = 0 := by rw [← hval j hjn]; exact hz
      by_contra hbit
      rw [Nat.zero_add] at hbit
      have hone := (validState_eq_true_iff n qs i).mp hv j hjn
        (by revert hbit; cases i.testBit j <;> simp)
      omega
  · have hex : ∃ q, q < n ∧ i.testBit q = true ∧ qs.count q % 2 = 0 := by
      by_contra hno
      push_neg at hno
      apply hv
      rw [validState_eq_true_iff]
      intro q hqn hbit
      have := hno q hqn hbit
      omega
    obtain ⟨q, hqn, hbit, hzero⟩ := hex
    rw [stateLoop_break]
    · rw [specCount, if_neg hv]
    · exact ⟨q, by rw [hlen]; exact hqn, by rw [hval q hqn]; exact hzero,
        by rwa [Nat.zero_add]⟩

/-!
## Lemmas about HadamardSimulator.run
-/

theorem processInstructions_val (ops : List Instruction) : ∀ acc qs,
    processInstructions ops acc = Except.ok qs →
    qs = acc ++ (ops.filter (fun op => op.name == "h")).map
      (fun op => op.qubits.headD 0) := by
  induction ops with
  | nil =>
    intro acc qs h
    rw [processInstructions, Except.ok.injEq] at h
    simp [← h]
  | cons op rest ih =>
    intro acc qs h
    rw [processInstructions] at h
    by_cases hc : op.conditional = true
    · rw [if_pos hc] at h
      exact absurd h (by simp)
    · rw [if_neg hc] at h
      by_cases hn : op.name = "h"
      · rw [if_neg (fun k => k hn)] at h
        cases hq : op.qubits with
        | nil =>
          rw [hq] at h
          exact absurd h (by simp)
        | cons q t =>
          rw [hq] at h
          have := ih (acc ++ [q]) qs h
          rw [this, List.filter_cons_of_pos (by simp [hn]), List.map_cons,
            hq, List.append_assoc]
          rfl
      · rw [if_pos hn] at h
        by_cases hm : op.name = "measure"
        · rw [if_pos hm] at h
          rw [ih acc qs h, List.filter_cons_of_neg (by simp [hn])]
        · rw [if_neg hm] at h
          exact absurd h (by simp)

theorem processInstructions_ok_iff (ops : List Instruction) : ∀ acc,
    (∃ qs, processInstructions ops acc = Except.ok qs) ↔
      ∀ op ∈ ops, op.conditional = false ∧
        (op.name = "h" ∨ op.name = "measure") ∧
        (op.name = "h" → op.qubits ≠ []) := by
  induction ops with
  | nil =>
    intro acc
    simp [processInstructions]
  | cons op rest ih =>
    intro acc
    by_cases hc : op.conditional = true
    · simp only [processInstructions, if_pos hc, List.forall_mem_cons]
      simp [hc]
    · have hcf : op.conditional = false := by
        revert hc; cases op.conditional <;> simp
      by_cases hn : op.name = "h"
      · cases hq : op.qubits with
        | nil =>
          simp only [processInstructions, if_neg hc, if_neg (not_not_intro hn),
            hq, List.forall_mem_cons]
          simp [hn, hcf, hq]
        | cons q t =>
          simp only [processInstructions, if_neg hc, if_neg (not_not_intro hn),
            hq, List.forall_mem_cons]
          rw [ih (acc ++ [q])]
          simp [hn, hcf, hq]
      · by_cases hm : op.name = "measure"
        · simp only [processInstructions, if_neg hc, if_pos hn, if_pos hm,
            List.forall_mem_cons]
          rw [ih acc]
          simp [hm, hcf, hn]
        · simp only [processInstructions, if_neg hc, if_pos hn, if_neg hm,
            List.forall_mem_cons]
          simp [hcf, hn, hm]

theorem runExperiment_eq_error (shots : Nat) (e : Experiment)
    (err : RunError)
    (h1 : processInstructions e.instructions [] = Except.error err) :
    runExperiment shots e = Except.error err := by
  rw [runExperiment, h1]

theorem runExperiment_eq_indexError (shots : Nat) (e : Experiment)
    (qs : List Nat)
    (h1 : processInstructions e.instructions [] = Except.ok qs)
    (h2 : run_hadamard_simulator e.config.n_qubits qs shots = none) :
    runExperiment shots e = Except.error RunError.indexError := by
  rw [runExperiment, h1]
  show (match run_hadamard_simulator e.config.n_qubits qs shots with
    | none => Except.error RunError.indexError
    | some counts =>
      Except.ok (ExperimentResult.mk e.header.name true shots
        ((List.range (2 ^ e.config.n_qubits)).filterMap
          (fun i => if counts.getD i 0 = 0 then none
                    else some (i, counts.getD i 0))) e.header)) =
    Except.error RunError.indexError
  rw [h2]

theorem runExperiment_eq_ok (shots : Nat) (e : Experiment)
    (qs counts : List Nat)
    (h1 : processInstructions e.instructions [] = Except.ok qs)
    (h2 : run_hadamard_simulator e.config.n_qubits qs shots = some counts) :
    runExperiment shots e = Except.ok
      { name := e.header.name
        success := true
        shots := shots
        counts := (List.range (2 ^ e.config.n_qubits)).filterMap
          (fun i => if counts.getD i 0 = 0 then none
                    else some (i, counts.getD i 0))
        header := e.header } := by
  rw [runExperiment, h1]
  show (match run_hadamard_simulator e.config.n_qubits qs shots with
    | none => Except.error RunError.indexError
    | some counts =>
      Except.ok (ExperimentResult.mk e.header.name true shots
        ((List.range (2 ^ e.config.n_qubits)).filterMap
          (fun i => if counts.getD i 0 = 0 then none
                    else some (i, counts.getD i 0))) e.header)) = _
  rw [h2]

theorem runExperiment_ok_iff (shots : Nat) (e : Experiment) :
    (∃ er, runExperiment shots e = Except.ok er) ↔
      ∀ op ∈ e.instructions, op.conditional = false ∧
        (op.name = "h" ∨ op.name = "measure") ∧
        (op.name = "h" → ∃ q, op.qubits.head? = some q ∧
          q < e.config.n_qubits) := by
  constructor
  · rintro ⟨er, her⟩
    cases h1 : processInstructions e.instructions [] with
    | error err =>
      rw [runExperiment_eq_error shots e err h1] at her
      exact absurd her (by simp)
    | ok qs =>
      cases h2 : run_hadamard_simulator e.config.n_qubits qs shots with
      | none =>
        rw [runExperiment_eq_indexError shots e qs h1 h2] at her
        exact absurd her (by simp)
      | some counts =>
        have hbasic := (processInstructions_ok_iff e.instructions []).mp ⟨qs, h1⟩
        have hqs : ∀ q ∈ qs, q < e.config.n_qubits :=
          (run_hadamard_simulator_isSome_iff _ _ _).mp ⟨counts, h2⟩
        have hval := processInstructions_val e.instructions [] qs h1
        intro op hop
        obtain ⟨hc, hnm, hne⟩ := hbasic op hop
        refine ⟨hc, hnm, fun hh => ?_⟩
        obtain ⟨q, t, hqt⟩ : ∃ q t, op.qubits = q :: t := by
          cases hq0 : op.qubits with
          | nil => exact absurd hq0 (hne hh)
          | cons q t => exact ⟨q, t, rfl⟩
        refine ⟨q, by rw [hqt]; rfl, ?_⟩
        apply hqs
        rw [hval, List.nil_append]
        exact List.mem_map.mpr
          ⟨op, List.mem_filter.mpr ⟨hop, by simp [hh]⟩, by rw [hqt]; rfl⟩
  · intro H
    have hbasic : ∀ op ∈ e.instructions, op.conditional = false ∧
        (op.name = "h" ∨ op.name = "measure") ∧
        (op.name = "h" → op.qubits ≠ []) := by
      intro op hop
      obtain ⟨hc, hnm, hh⟩ := H op hop
      refine ⟨hc, hnm, fun h1 => ?_⟩
      obtain ⟨q, hq, -⟩ := hh h1
      intro hnil
      rw [hnil] at hq
      exact absurd hq (by simp)
    obtain ⟨qs, h1⟩ := (processInstructions_ok_iff e.instructions []).mpr hbasic
    have hval := processInstructions_val e.instructions [] qs h1
    have hqs : ∀ q ∈ qs, q < e.config.n_qubits := by
      intro q hq
      rw [hval, List.nil_append] at hq
      obtain ⟨op, hmem, hqeq⟩ := List.mem_map.mp hq
      obtain ⟨hop, hpred⟩ := List.mem_filter.mp hmem
      have hh : op.name = "h" := by simpa using hpred
      obtain ⟨q2, hq2, hlt⟩ := (H op hop).2.2 hh
      cases hq0 : op.qubits with
      | nil =>
        rw [hq0] at hq2
        exact absurd hq2 (by simp)
      | cons q3 t =>
        rw [hq0] at hq2 hqeq
        simp only [List.head?_cons, Option.some.injEq] at hq2
        simp only [List.headD_cons] at hqeq
        rw [← hqeq, hq2]
        exact hlt
    obtain ⟨counts, h2⟩ := (run_hadamard_simulator_isSome_iff _ _ _).mpr hqs
    exact ⟨_, runExperiment_eq_ok shots e qs counts h1 h2⟩

theorem runExperiment_val (shots : Nat) (e : Experiment)
    (er : ExperimentResult) (h : runExperiment shots e = Except.ok er) :
    er.success = true ∧ er.shots = shots ∧ er.name = e.header.name ∧
      ∀ p ∈ er.counts, p.2 ≠ 0 := by
  cases h1 : processInstructions e.instructions [] with
  | error err =>
    rw [runExperiment_eq_error shots e err h1] at h
    exact absurd h (by simp)
  | ok qs =>
    cases h2 : run_hadamard_simulator e.config.n_qubits qs shots with
    | none =>
      rw [runExperiment_eq_indexError shots e qs h1 h2] at h
      exact absurd h (by simp)
    | some counts =>
      rw [runExperiment_eq_ok shots e qs counts h1 h2, Except.ok.injEq] at h
      subst h
      refine ⟨rfl, rfl, rfl, ?_⟩
      intro p hp
      obtain ⟨i, -, hi⟩ := List.mem_filterMap.mp hp
      by_cases hz : counts.getD i 0 = 0
      · rw [if_pos hz] at hi
        exact absurd hi (by simp)
      · rw [if_neg hz] at hi
        rw [Option.some.injEq] at hi
        rw [← hi]
        exact hz

theorem runExperiments_ok_iff (shots : Nat) (es : List Experiment) :
    (∃ ers, runExperiments shots es = Except.ok ers) ↔
      ∀ e ∈ es, ∃ er, runExperiment shots e = Except.ok er := by
  induction es with
  | nil => simp [runExperiments]
  | cons e rest ih =>
    constructor
    · rintro ⟨ers, hr⟩
      rw [runExperiments] at hr
      cases h1 : runExperiment shots e with
      | error err => rw [h1] at hr; exact absurd hr (by simp)
      | ok er =>
        rw [h1] at hr
        cases h2 : runExperiments shots rest with
        | error err => rw [h2] at hr; exact absurd hr (by simp)
        | ok ers2 =>
          intro e2 he2
          rcases List.mem_cons.mp he2 with rfl | hmem
          · exact ⟨er, h1⟩
          · exact ih.mp ⟨ers2, h2⟩ e2 hmem
    · intro H
      obtain ⟨er, h1⟩ := H e (by simp)
      obtain ⟨ers2, h2⟩ := ih.mpr (fun e2 he2 => H e2 (by simp [he2]))
      exact ⟨er :: ers2, by rw [runExperiments, h1, h2]⟩

theorem runExperiments_val (shots : Nat) (es : List Experiment) : ∀ ers,
    runExperiments shots es = Except.ok ers →
    ers.length = es.length ∧
      ∀ er ∈ ers, ∃ e ∈ es, runExperiment shots e = Except.ok er := by
  induction es with
  | nil =>
    intro ers h
    rw [runExperiments, Except.ok.injEq] at h
    subst h
    simp
  | cons e rest ih =>
    intro ers h
    rw [runExperiments] at h
    cases h1 : runExperiment shots e with
    | error err => rw [h1] at h; exact absurd h (by simp)
    | ok er =>
      rw [h1] at h
      cases h2 : runExperiments shots rest with
      | error err => rw [h2] at h; exact absurd h (by simp)
      | ok ers2 =>
        rw [h2, Except.ok.injEq] at h
        subst h
        obtain ⟨hlen, hmem⟩ := ih ers2 h2
        refine ⟨by simp [hlen], ?_⟩
        intro er2 her2
        rcases List.mem_cons.mp her2 with rfl | hmem2
        · exact ⟨e, by simp, h1⟩
        · obtain ⟨e2, he2, hok⟩ := hmem er2 hmem2
          exact ⟨e2, by simp [he2], hok⟩

theorem run_eq_error (b : HadamardSimulator) (qobj : Qobj) (err : RunError)
    (h1 : runExperiments qobj.config.shots qobj.experiments =
      Except.error err) :
    HadamardSimulator.run b qobj = Except.error err := by
  rw [HadamardSimulator.run, h1]

theorem run_eq_ok (b : HadamardSimulator) (qobj : Qobj)
    (ers : List ExperimentResult)
    (h1 : runExperiments qobj.config.shots qobj.experiments = Except.ok ers) :
    HadamardSimulator.run b qobj = Except.ok
      { backend := none, job_id := 1, job_result := runResultDict ers } := by
  rw [HadamardSimulator.run, h1]

theorem run_ok_elim (b : HadamardSimulator) (qobj : Qobj) (job : HadamardJob)
    (h : HadamardSimulator.run b qobj = Except.ok job) :
    ∃ ers, runExperiments qobj.config.shots qobj.experiments = Except.ok ers ∧
      job = { backend := none, job_id := 1,
              job_result := runResultDict ers } := by
  cases h1 : runExperiments qobj.config.shots qobj.experiments with
  | error err =>
    rw [run_eq_error b qobj err h1] at h
    exact absurd h (by simp)
  | ok ers =>
    rw [run_eq_ok b qobj ers h1, Except.ok.injEq] at h
    exact ⟨ers, rfl, h.symm⟩

/-!
## Claims
-/

/-- Claim C1: the claim states that each of the 2 ^ k reachable basis
states receives shots / 2 ^ k shots (k the number of odd-parity qubits).
The code instead adds shots / 2 ^ (1 + k) once per odd-parity qubit, giving
k * (shots / 2 ^ (1 + k)).  At number_of_qubits = 1, list_of_qubits = [0],
shots = 100 (k = 1) the code returns 25 shots for each of the two basis
states, 50 in total, while the claim (and the docstring, which promises the
counts of 100 shots) requires 50 and 50.  This theorem evaluates the
embedded code at that failing input. -/
theorem claim_C1_parity_counts_failing_input :
    run_hadamard_simulator 1 [0] 100 = some [25, 25] := by decide

/-- Claim C2 as frozen is false: a qobj whose only instruction is an
unconditional h gate can still make run raise, namely when the gate acts on
a qubit index outside range(n_qubits), which raises IndexError inside
run_hadamard_simulator.  Concretely: one experiment with n_qubits = 1 and a
single h instruction on qubit 1. -/
theorem claim_C2_counterexample :
    (∀ e ∈ (Qobj.mk [Experiment.mk ⟨1⟩ ⟨"c"⟩ [Instruction.mk "h" [1] false]]
        ⟨100⟩).experiments,
      ∀ op ∈ e.instructions, op.conditional = false ∧
        (op.name = "h" ∨ op.name = "measure")) ∧
    HadamardSimulator.run hadamardSimulator
      (Qobj.mk [Experiment.mk ⟨1⟩ ⟨"c"⟩ [Instruction.mk "h" [1] false]]
        ⟨100⟩) = Except.error RunError.indexError := by
  exact ⟨by decide, by decide⟩

/-- Claim C2, amended: HadamardSimulator.run returns a job exactly when
every instruction of every experiment is unconditional, is named h or
measure, and every h instruction has a first target qubit that exists and
lies below its experiment config.n_qubits; otherwise it raises (QiskitError
for conditional or foreign gates, IndexError for missing or out-of-range
h targets). -/
theorem claim_C2_run_raises_iff (b : HadamardSimulator) (qobj : Qobj) :
    (∃ job, HadamardSimulator.run b qobj = Except.ok job) ↔
      ∀ e ∈ qobj.experiments, ∀ op ∈ e.instructions,
        op.conditional = false ∧ (op.name = "h" ∨ op.name = "measure") ∧
        (op.name = "h" → ∃ q, op.qubits.head? = some q ∧
          q < e.config.n_qubits) := by
  have h1 : (∃ job, HadamardSimulator.run b qobj = Except.ok job) ↔
      ∃ ers, runExperiments qobj.config.shots qobj.experiments =
        Except.ok ers := by
    constructor
    · rintro ⟨job, hj⟩
      obtain ⟨ers, hers, -⟩ := run_ok_elim b qobj job hj
      exact ⟨ers, hers⟩
    · rintro ⟨ers, hers⟩
      exact ⟨_, run_eq_ok b qobj ers hers⟩
  rw [h1, runExperiments_ok_iff]
  constructor
  · intro H e he
    exact (runExperiment_ok_iff qobj.config.shots e).mp (H e he)
  · intro H e he
    exact (runExperiment_ok_iff qobj.config.shots e).mpr (H e he)

/-- Claim C3 as frozen is false at the empty-string name: Python tests the
name argument for truthiness, so backends("") returns the whole internal
list even though no backend has the empty string as its name. -/
theorem claim_C3_counterexample :
    HadamardProvider.backends mkHadamardProvider (some "") =
      [hadamardSimulator] ∧
    HadamardSimulator.name hadamardSimulator ≠ "" := by
  exact ⟨by decide, by decide⟩

/-- Claim C3, amended: backends is a pure filter over the static internal
list, which __init__ fixes to the single HadamardSimulator: it returns the
name-filtered list for a nonempty name, and the whole list when name is
None or the empty string (both falsy in Python). -/
theorem claim_C3_backends_filter (p : HadamardProvider) :
    (HadamardProvider.backends p none = p.backend_list) ∧
    (HadamardProvider.backends p (some "") = p.backend_list) ∧
    (∀ s, s ≠ "" → HadamardProvider.backends p (some s) =
      p.backend_list.filter (fun backend => backend.name == s)) ∧
    mkHadamardProvider.backend_list = [hadamardSimulator] := by
  refine ⟨rfl, rfl, fun s hs => ?_, rfl⟩
  rw [HadamardProvider.backends, if_neg hs]

/-- Claim C3 witness: the amended theorem applied to the provider built by
__init__ and the name of the Hadamard backend. -/
theorem claim_C3_backends_filter_witness :
    HadamardProvider.backends mkHadamardProvider (some "hadamard_simulator") =
      mkHadamardProvider.backend_list.filter
        (fun backend => backend.name == "hadamard_simulator") :=
  (claim_C3_backends_filter mkHadamardProvider).2.2.1 "hadamard_simulator"
    (by decide)

/-- Claim C4: run_hadamard_simulator enumerates all 2 ^ n basis states:
under the bounds precondition the returned list has length exactly 2 ^ n
and entry i is the count for the basis state in which qubit q carries bit q
of i (specCount reads the state through Nat.testBit i q). -/
theorem claim_C4_enumeration (number_of_qubits : Nat)
    (list_of_qubits : List Nat) (shots : Nat)
    (hq : ∀ q ∈ list_of_qubits, q < number_of_qubits) :
    ∃ r, run_hadamard_simulator number_of_qubits list_of_qubits shots =
        some r ∧
      r.length = 2 ^ number_of_qubits ∧
      ∀ i, i < 2 ^ number_of_qubits →
        r.getD i 0 = specCount number_of_qubits list_of_qubits shots i :=
  run_hadamard_simulator_spec number_of_qubits list_of_qubits shots hq

/-- Claim C4 witness: the enumeration theorem evaluated at 2 qubits with a
Hadamard on each. -/
theorem claim_C4_enumeration_witness :
    ∃ r, run_hadamard_simulator 2 [0, 1] 8 = some r ∧
      r.length = 2 ^ 2 ∧
      ∀ i, i < 2 ^ 2 → r.getD i 0 = specCount 2 [0, 1] 8 i :=
  claim_C4_enumeration 2 [0, 1] 8 (by decide)

/-- Claim C5: execution is synchronous: whenever run returns a job, the
counts of every experiment are already fully computed inside the job, the
stored result has success True, one entry per experiment carrying the qobj
shot number and only nonzero counts, and HadamardJob.result returns that
stored result directly. -/
theorem claim_C5_synchronous (b : HadamardSimulator) (qobj : Qobj)
    (job : HadamardJob) (h : HadamardSimulator.run b qobj = Except.ok job) :
    HadamardJob.result job = job.job_result ∧
    job.job_result.success = true ∧
    job.job_result.results.length = qobj.experiments.length ∧
    ∀ er ∈ job.job_result.results, er.success = true ∧
      er.shots = qobj.config.shots ∧ ∀ p ∈ er.counts, p.2 ≠ 0 := by
  obtain ⟨ers, hers, hjob⟩ := run_ok_elim b qobj job h
  subst hjob
  obtain ⟨hlen, hmem⟩ :=
    runExperiments_val qobj.config.shots qobj.experiments ers hers
  refine ⟨rfl, rfl, hlen, ?_⟩
  intro er her
  obtain ⟨e, -, hok⟩ := hmem er her
  obtain ⟨hsucc, hshots, -, hcnt⟩ :=
    runExperiment_val qobj.config.shots e er hok
  exact ⟨hsucc, hshots, hcnt⟩

/-- Claim C5 witness: the synchrony theorem at a one-experiment qobj with
no instructions and 7 shots. -/
theorem claim_C5_synchronous_witness :
    HadamardJob.result
        (HadamardJob.mk none 1
          (runResultDict [ExperimentResult.mk "c" true 7 [] ⟨"c"⟩])) =
      (HadamardJob.mk none 1
        (runResultDict [ExperimentResult.mk "c" true 7 [] ⟨"c"⟩])).job_result ∧
    (runResultDict [ExperimentResult.mk "c" true 7 [] ⟨"c"⟩]).success = true ∧
    (runResultDict [ExperimentResult.mk "c" true 7 [] ⟨"c"⟩]).results.length =
      1 ∧
    ∀ er ∈ (runResultDict [ExperimentResult.mk "c" true 7 [] ⟨"c"⟩]).results,
      er.success = true ∧ er.shots = 7 ∧ ∀ p ∈ er.counts, p.2 ≠ 0 :=
  claim_C5_synchronous hadamardSimulator
    (Qobj.mk [Experiment.mk ⟨1⟩ ⟨"c"⟩ []] ⟨7⟩)
    (HadamardJob.mk none 1
      (runResultDict [ExperimentResult.mk "c" true 7 [] ⟨"c"⟩]))
    (by decide)

/-- Claim C6: run_hadamard_simulator is deterministic and stateless: it is
a pure function of its three arguments (the Lean embedding of the Python
body, which reads and writes no state outside its locals), so two calls
with equal arguments return equal lists. -/
theorem claim_C6_deterministic (n1 : Nat) (qs1 : List Nat) (s1 : Nat)
    (n2 : Nat) (qs2 : List Nat) (s2 : Nat)
    (hn : n1 = n2) (hqs : qs1 = qs2) (hs : s1 = s2) :
    run_hadamard_simulator n1 qs1 s1 = run_hadamard_simulator n2 qs2 s2 := by
  subst hn
  subst hqs
  subst hs
  rfl

/-- Claim C6 witness: two calls with the arguments 1, [0], 6 agree. -/
theorem claim_C6_deterministic_witness :
    run_hadamard_simulator 1 [0] 6 = run_hadamard_simulator 1 [0] 6 :=
  claim_C6_deterministic 1 [0] 6 1 [0] 6 rfl rfl rfl

/-- Claim C7: HadamardJob is an inert stub: cancel, status and submit all
return None and hand back the job with every field (backend, job id,
stored result) unchanged. -/
theorem claim_C7_job_stub (j : HadamardJob) :
    HadamardJob.cancel j = (none, j) ∧
    HadamardJob.status j = (none, j) ∧
    HadamardJob.submit j = (none, j) ∧
    (HadamardJob.cancel j).2.backend = j.backend ∧
    (HadamardJob.cancel j).2.job_result = j.job_result :=
  ⟨rfl, rfl, rfl, rfl, rfl⟩

/-- Claim C8: any basis state with a 1-bit on a qubit whose Hadamard count
is even (in particular zero) receives the count 0: the inner loop breaks at
that qubit and overwrites the accumulated count with 0. -/
theorem claim_C8_even_parity_zero (number_of_qubits : Nat)
    (list_of_qubits : List Nat) (shots : Nat) (r : List Nat) (i q : Nat)
    (hq : ∀ x ∈ list_of_qubits, x < number_of_qubits)
    (hr : run_hadamard_simulator number_of_qubits list_of_qubits shots =
      some r)
    (hi : i < 2 ^ number_of_qubits) (hqn : q < number_of_qubits)
    (heven : list_of_qubits.count q % 2 = 0) (hbit : i.testBit q = true) :
    r.getD i 0 = 0 := by
  obtain ⟨r2, hr2, -, hval⟩ :=
    run_hadamard_simulator_spec number_of_qubits list_of_qubits shots hq
  rw [hr, Option.some.injEq] at hr2
  subst hr2
  have hinvalid : ¬ validState number_of_qubits list_of_qubits i = true := by
    intro hv
    have := (validState_eq_true_iff number_of_qubits list_of_qubits i).mp
      hv q hqn hbit
    omega
  rw [hval i hi]
  simp only [specCount]
  rw [if_neg hinvalid]

/-- Claim C8 witness: with 2 qubits and a single Hadamard on qubit 0, the
basis state 2 (qubit 1 set) gets count 0. -/
theorem claim_C8_even_parity_zero_witness :
    ([25, 25, 0, 0] : List Nat).getD 2 0 = 0 :=
  claim_C8_even_parity_zero 2 [0] 100 [25, 25, 0, 0] 2 1 (by decide)
    (by decide) (by decide) (by decide) (by decide) (by decide)

/-- Claim C9: when every element of list_of_qubits lies below
number_of_qubits, every list access in run_hadamard_simulator is in bounds
and the function returns a value (no IndexError, i.e. not none). -/
theorem claim_C9_in_bounds (number_of_qubits : Nat)
    (list_of_qubits : List Nat) (shots : Nat)
    (hq : ∀ q ∈ list_of_qubits, q < number_of_qubits) :
    ∃ r, run_hadamard_simulator number_of_qubits list_of_qubits shots =
      some r :=
  (run_hadamard_simulator_isSome_iff number_of_qubits list_of_qubits
    shots).mpr hq

/-- Claim C9 witness: the safety theorem at 3 qubits. -/
theorem claim_C9_in_bounds_witness :
    ∃ r, run_hadamard_simulator 3 [0, 1, 2, 2] 10 = some r :=
  claim_C9_in_bounds 3 [0, 1, 2, 2] 10 (by decide)

/-- Claim C10: when the instruction scan succeeds, measure instructions are
skipped and contribute nothing: the produced list_of_qubits is exactly the
first target qubit of each h instruction in order of appearance (and every
h instruction indeed has a first qubit). -/
theorem claim_C10_h_qubits (ops : List Instruction) (qs : List Nat)
    (h : processInstructions ops [] = Except.ok qs) :
    qs = (ops.filter (fun op => op.name == "h")).map
      (fun op => op.qubits.headD 0) ∧
    ∀ op ∈ ops, op.name = "h" → op.qubits ≠ [] := by
  constructor
  · have := processInstructions_val ops [] qs h
    rwa [List.nil_append] at this
  · intro op hop hh
    exact ((processInstructions_ok_iff ops []).mp ⟨qs, h⟩ op hop).2.2 hh

/-- Claim C10 witness: the scan of an h, measure, h sequence yields the h
target qubits 2 and 0 in order. -/
theorem claim_C10_h_qubits_witness :
    ([2, 0] : List Nat) =
      (([Instruction.mk "h" [2] false, Instruction.mk "measure" [0] false,
        Instruction.mk "h" [0] false]).filter
          (fun op => op.name == "h")).map (fun op => op.qubits.headD 0) ∧
    ∀ op ∈ [Instruction.mk "h" [2] false,
        Instruction.mk "measure" [0] false, Instruction.mk "h" [0] false],
      op.name = "h" → op.qubits ≠ [] :=
  claim_C10_h_qubits
    [Instruction.mk "h" [2] false, Instruction.mk "measure" [0] false,
      Instruction.mk "h" [0] false] [2, 0] (by decide)
